import Mathlib

/-!
Verification of `agc.c` (a fast lookahead microphone AGC).

The C program is shallowly embedded here.  Conventions:

* C `float`/`double` values are modelled as exact rationals (`ℚ`); float
  rounding is not modelled, so every arithmetic claim is settled at the
  exact-arithmetic level.  Decimal literals of the source are embedded as
  the exact decimal rational they denote.
* C `int` fields are modelled as `Int`.  The C `%` and `/` on ints truncate
  toward zero, so they are embedded as `Int.tmod` and `Int.tdiv`.
* The transcendental library calls `powf` and `log10f` return values that
  are not rational in general, so the embedding takes the conversion
  function as an explicit argument (`pow`, `log10q`); theorems hold for
  every such function, and concrete runs instantiate it at arguments where
  `powf` is exact (integer exponents).
* `M_PI` is the IEEE-754 double nearest pi, an explicit rational below.
* Heap pointers (`host`, `partner`, which point to `self` or the stereo
  partner) are modelled as channel identifiers in a world of channels,
  `World := Nat → Agc`; `agc_init` receives the identifier the fresh
  channel is stored under, standing for its own address.
* `calloc` zero-initialisation is the explicit state `agcZero`.
-/

/-- Coefficients of an RC filter (`struct agc_RC_Coe`). -/
structure RC_Coe where
  a : ℚ
  b : ℚ
  c : ℚ
  f : ℚ
  q : ℚ
deriving DecidableEq

/-- Variables (running state) of an RC filter (`struct agc_RC_Var`). -/
structure RC_Var where
  last_in : ℚ
  lp : ℚ
  bp : ℚ
  hp : ℚ
deriving DecidableEq

/-- An RC filter: coefficients plus running state (`struct agc_RC_Filter`). -/
structure RC_Filter where
  coe : RC_Coe
  var : RC_Var
deriving DecidableEq

/-- A fixed four-element array, used for the size-4 C arrays of the agc
struct (`RR_reset_point[4]`, `RR_signal[4]`, ...). -/
structure Quad (α : Type) where
  s0 : α
  s1 : α
  s2 : α
  s3 : α
deriving DecidableEq

/-- Index a `Quad` like the C arrays. -/
def Quad.get {α : Type} (q : Quad α) (j : Fin 4) : α :=
  match j with
  | ⟨0, _⟩ => q.s0
  | ⟨1, _⟩ => q.s1
  | ⟨2, _⟩ => q.s2
  | ⟨3, _⟩ => q.s3

/-- The state of one AGC channel (`struct agc`).  `host` and `partner` are
channel identifiers (the C code stores pointers to self or to the stereo
partner). -/
structure Agc where
  host : Nat
  partner : Nat
  input : ℚ
  ratio : ℚ
  limit : ℚ
  nr_gain : ℚ
  nr_onthres : ℚ
  nr_offthres : ℚ
  gain_interval_amount : ℚ
  nr_state : Int
  buffer : List ℚ
  buffer_len : Int
  sRate : Int
  in_pos : Int
  out_pos : Int
  gain : ℚ
  DC : ℚ
  ds_bias : ℚ
  ds_gain : ℚ
  ds_state : Int
  RR_reset_point : Quad Int
  RR_signal : Quad ℚ
  RR_DS_high : Quad ℚ
  RR_DS_low : Quad ℚ
  use_ducker : Int
  df : ℚ
  ducker_attack : ℚ
  ducker_release : ℚ
  ducker_hold_timer : Int
  ducker_hold_timer_resetval : Int
  meter_red : ℚ
  meter_yellow : ℚ
  meter_green : ℚ
  RC_HPF_initial : List RC_Filter
  hpstages : Int
  hf_detail : ℚ
  RC_HPF_detail : RC_Filter
  lf_detail : ℚ
  RC_LPF_detail : RC_Filter
  use_phaserotator : Int
  RC_PHR : Quad RC_Filter
  RC_F_DS : RC_Filter
deriving DecidableEq

/-- The world of channels; a channel id stands for a C pointer. -/
def World : Type := Nat → Agc

/-- Conversion of a rational to `int` as a C cast does: truncation toward
zero. -/
def truncToInt (q : ℚ) : Int := q.num.tdiv (q.den : Int)

/-- The IEEE-754 double value of `M_PI` (the double nearest pi). -/
def m_pi : ℚ := 884279719003555 / 281474976710656

/-- Zeroed filter variables (from `calloc`). -/
def rcVarZero : RC_Var := ⟨0, 0, 0, 0⟩

/-- Zeroed filter coefficients (from `calloc`). -/
def rcCoeZero : RC_Coe := ⟨0, 0, 0, 0, 0⟩

/-- A zeroed RC filter (from `calloc`). -/
def rcZero : RC_Filter := ⟨rcCoeZero, rcVarZero⟩

/-- A zeroed `Quad`. -/
def quadZero : Quad ℚ := ⟨0, 0, 0, 0⟩

/-- The zeroed agc struct produced by `calloc(1, sizeof (struct agc))` in
`agc_init`, before any field is assigned. -/
def agcZero : Agc where
  host := 0
  partner := 0
  input := 0
  ratio := 0
  limit := 0
  nr_gain := 0
  nr_onthres := 0
  nr_offthres := 0
  gain_interval_amount := 0
  nr_state := 0
  buffer := []
  buffer_len := 0
  sRate := 0
  in_pos := 0
  out_pos := 0
  gain := 0
  DC := 0
  ds_bias := 0
  ds_gain := 0
  ds_state := 0
  RR_reset_point := ⟨0, 0, 0, 0⟩
  RR_signal := quadZero
  RR_DS_high := quadZero
  RR_DS_low := quadZero
  use_ducker := 0
  df := 0
  ducker_attack := 0
  ducker_release := 0
  ducker_hold_timer := 0
  ducker_hold_timer_resetval := 0
  meter_red := 0
  meter_yellow := 0
  meter_green := 0
  RC_HPF_initial := List.replicate 4 rcZero
  hpstages := 0
  hf_detail := 0
  RC_HPF_detail := rcZero
  lf_detail := 0
  RC_LPF_detail := rcZero
  use_phaserotator := 0
  RC_PHR := ⟨rcZero, rcZero, rcZero, rcZero⟩
  RC_F_DS := rcZero

/-- The RC coefficient computation repeated by `setup_subsonic`,
`setup_lfdetail`, `setup_hfdetail` and the filter setups inside `agc_init`:
given the cutoff `f` and resonance `q`,
`a = 1 - (1/sRate) / ((1/(f*2*pi)) + (1/sRate))`, `b = 1 - a`,
`c = (1/(f*2*pi)) / ((1/(f*2*pi)) + (1/sRate))`. -/
def rc_coefficients (sRate : Int) (fCut qv : ℚ) : RC_Coe :=
  let rc := 1 / (fCut * 2 * m_pi)
  let dt : ℚ := 1 / (sRate : ℚ)
  { a := 1 - dt / (rc + dt)
    b := 1 - (1 - dt / (rc + dt))
    c := rc / (rc + dt)
    f := fCut
    q := qv }

/-- `agc_12db_hpfilter`: one 12 dB/octave resonant highpass stage.  Returns
the updated variables and the output (`v->hp`). -/
def agc_12db_hpfilter (c : RC_Coe) (v : RC_Var) (input : ℚ) : RC_Var × ℚ :=
  let inp := input + c.q * v.bp
  let hp := c.c * (v.hp + inp - v.last_in)
  let bp := v.bp * c.a + hp * c.b
  (⟨inp, v.lp, bp, hp⟩, hp)

/-- `agc_6db_hpfilter`: one-pole highpass mixed back with the dry signal. -/
def agc_6db_hpfilter (detail : ℚ) (c : RC_Coe) (v : RC_Var) (input : ℚ) :
    RC_Var × ℚ :=
  let hp := c.c * (v.hp + input - v.last_in)
  (⟨input, v.lp, v.bp, hp⟩, input + hp * detail)

/-- `agc_6db_lpfilter`: one-pole lowpass mixed back with the dry signal. -/
def agc_6db_lpfilter (detail : ℚ) (c : RC_Coe) (v : RC_Var) (input : ℚ) :
    RC_Var × ℚ :=
  let lp := v.lp * c.a + input * c.b
  (⟨v.last_in, lp, v.bp, v.hp⟩, input + lp * detail)

/-- `agc_phaserotate`: one allpass-like section (lowpass minus highpass). -/
def agc_phaserotate (fl : RC_Filter) (input : ℚ) : RC_Filter × ℚ :=
  let c := fl.coe
  let v := fl.var
  let hp := c.c * (v.hp + input - v.last_in)
  let lp := v.lp * c.a + input * c.b
  (⟨c, ⟨input, lp, v.bp, hp⟩⟩, lp - hp)

/-- One slot of the round-robin envelope follower, as the body of the loop
in `agc_quad_rr` treats it: zero the slot if its reset point equals the
current phase, then raise it to the input magnitude if that is higher. -/
def rrSlot (reset phase : Int) (ia st : ℚ) : ℚ :=
  let st1 := if reset = phase then 0 else st
  if ia > st1 then ia else st1

/-- `agc_quad_rr`: the round-robin 4-slot peak envelope follower.  Returns
the updated storage and the reported level (the running `highest`, which
starts at `0.0f`). -/
def agc_quad_rr (storage : Quad ℚ) (rp : Quad Int) (phase : Int)
    (input : ℚ) : Quad ℚ × ℚ :=
  let ia := |input|
  let t0 := rrSlot rp.s0 phase ia storage.s0
  let t1 := rrSlot rp.s1 phase ia storage.s1
  let t2 := rrSlot rp.s2 phase ia storage.s2
  let t3 := rrSlot rp.s3 phase ia storage.s3
  let h0 : ℚ := 0
  let h1 := if t0 > h0 then t0 else h0
  let h2 := if t1 > h1 then t1 else h1
  let h3 := if t2 > h2 then t2 else h2
  let h4 := if t3 > h3 then t3 else h3
  (⟨t0, t1, t2, t3⟩, h4)

/-- The `for (i = 0, q = s->host->hpstages; i < q; ++i)` loop of
`agc_process_stage1`: stage `idx` reads its coefficients from the host's
filter bank and updates the channel's own running state.  `n` is the
number of stages still to run (the loop runs `hpstages` times; the array
has four entries, and a well-formed state keeps `hpstages` within 0..4). -/
def agc_hp_loop (hostf : List RC_Filter) :
    List RC_Filter → Nat → Nat → ℚ → List RC_Filter × ℚ
  | selff, _, 0, input => (selff, input)
  | selff, idx, n + 1, input =>
    let c := (hostf.getD idx rcZero).coe
    let fl := selff.getD idx rcZero
    let r := agc_12db_hpfilter c fl.var input
    agc_hp_loop hostf (selff.set idx ⟨fl.coe, r.1⟩) (idx + 1) n r.2

/-- `agc_process_stage1`: run the fixed filter chain (subsonic bank, HF
detail, LF detail, optional phase rotator), store the result in the ring
buffer and in `input`, and advance both cursors. -/
def agc_process_stage1 (w : World) (i : Nat) (input0 : ℚ) : World :=
  let s := w i
  let host := w s.host
  let r1 := agc_hp_loop host.RC_HPF_initial s.RC_HPF_initial 0
    host.hpstages.toNat input0
  let r2 := agc_6db_hpfilter host.hf_detail host.RC_HPF_detail.coe
    s.RC_HPF_detail.var r1.2
  let r3 := agc_6db_lpfilter host.lf_detail host.RC_LPF_detail.coe
    s.RC_LPF_detail.var r2.2
  let r4 :=
    if host.use_phaserotator ≠ 0 then
      let p0 := agc_phaserotate s.RC_PHR.s0 r3.2
      let p1 := agc_phaserotate s.RC_PHR.s1 p0.2
      let p2 := agc_phaserotate s.RC_PHR.s2 p1.2
      let p3 := agc_phaserotate s.RC_PHR.s3 p2.2
      ((⟨p0.1, p1.1, p2.1, p3.1⟩ : Quad RC_Filter), p3.2)
    else (s.RC_PHR, r3.2)
  let s' := { s with
    RC_HPF_initial := r1.1
    RC_HPF_detail := ⟨s.RC_HPF_detail.coe, r2.1⟩
    RC_LPF_detail := ⟨s.RC_LPF_detail.coe, r3.1⟩
    RC_PHR := r4.1
    buffer := s.buffer.set (s.in_pos.tmod s.buffer_len).toNat r4.2
    input := r4.2
    in_pos := s.in_pos + 1
    out_pos := s.out_pos + 1 }
  Function.update w i s'

/-- The noise-gate state update of `agc_process_stage2`:
`if (amp < s->nr_onthres) s->nr_state = 1; if (amp > s->nr_offthres)
s->nr_state = 0;` (state 1 is CLOSED, state 0 is OPEN). -/
def agc_nr_next (onthres offthres : ℚ) (st : Int) (amp : ℚ) : Int :=
  let st1 := if amp < onthres then 1 else st
  if amp > offthres then 0 else st1

/-- The de-esser state update of `agc_process_stage2`, with the source's
float literals `1.3333333f` and `0.75f` embedded as exact decimals. -/
def agc_ds_next (bias : ℚ) (st : Int) (dsh dsl : ℚ) : Int :=
  let st1 := if dsh * bias > dsl * (13333333 / 10000000) then 1 else st
  if dsh * bias < dsl * (3 / 4) then 0 else st1

/-- The raw amplification factor of `agc_process_stage2`:
`factor = s->limit / (amp + 0.0001f)` capped at `s->ratio`. -/
def agc_raw_factor (s : Agc) (amp : ℚ) : ℚ :=
  let factor := s.limit / (amp + 1 / 10000)
  if factor > s.ratio then s.ratio else factor

/-- The target gain of `agc_process_stage2` before ramping: the raw factor
scaled by the noise-gate attenuation when the gate has just gone or stayed
closed, then by the de-esser attenuation when the de-esser is active. -/
def agc_target_factor (s : Agc) (amp dsh dsl : ℚ) : ℚ :=
  let orig := agc_raw_factor s amp
  let f1 := if agc_nr_next s.nr_onthres s.nr_offthres s.nr_state amp = 1
    then orig * s.nr_gain else orig
  if agc_ds_next s.ds_bias s.ds_state dsh dsl = 1 then f1 * s.ds_gain else f1

/-- The gain ramp of `agc_process_stage2`: move `gain` one interval amount
toward `factor` (two sequential `if`s in the source, so an overshoot past
`factor` is pulled back within the same update). -/
def agc_gain_ramp (gia factor gain : ℚ) : ℚ :=
  let g1 := if gain < factor then gain + gia else gain
  if g1 > factor then g1 - gia else g1

/-- The ducker update of `agc_process_stage2`: returns the new `df` and the
new hold timer. -/
def agc_ducker_step (s : Agc) (mic_is_mute : Bool) (factor amp : ℚ) :
    ℚ × Int :=
  if mic_is_mute = true ∨ s.use_ducker = 0 then
    (if s.df < 1 then s.df + s.ducker_release else 1, s.ducker_hold_timer)
  else
    let duck0 := 1 - factor * amp
    let duck_amp := if duck0 < 1 - s.limit then 1 - s.limit else duck0
    let p : ℚ × Int :=
      if s.df < duck_amp then
        (if s.ducker_hold_timer = 0 then (s.df + s.ducker_release, s.ducker_hold_timer)
         else (s.df, s.ducker_hold_timer - 1))
      else (s.df, s.ducker_hold_timer)
    if p.1 > duck_amp then (p.1 - s.ducker_attack, s.ducker_hold_timer_resetval)
    else p

/-- The body of `agc_process_stage2` for a self-hosted channel (the whole
body of the C function runs under `if (s == s->host)`).  The sidechain
input is the average of both partners when the partner delegates to this
channel, the de-esser sidechain filter is stepped, the three envelope
followers are updated, and gain, noise gate, de-esser, ducker and meters
are updated.  (`agc_nr_next`/`agc_ds_next` are pure, so computing the new
state and the gated factor through them repeats no side effect.  The
source's float-typed `phase` variable carries an integer value that the
float represents exactly, modelled as `Int`; the meter latch
`(out_pos & 0x7) == 0` is modelled as `out_pos.toNat % 8 = 0`, the same
test on the nonnegative cursor.) -/
def agc_stage2_host (w : World) (i : Nat) (mic_is_mute : Bool) : Agc :=
  let s := w i
  let partner := w s.partner
  let input := if partner.host = i then (s.input + partner.input) * (1 / 2)
    else s.input
  let phase := s.in_pos.tmod (2 * s.buffer_len)
  let c := s.RC_F_DS.coe
  let v := s.RC_F_DS.var
  let ds_input := input + c.q * v.bp
  let lp := v.lp * c.a + ds_input * c.b
  let hp := c.c * (v.hp + input - v.last_in)
  let bp := v.bp * c.a + hp * c.b
  let rh := agc_quad_rr s.RR_DS_high s.RR_reset_point phase hp
  let rl := agc_quad_rr s.RR_DS_low s.RR_reset_point phase lp
  let rs := agc_quad_rr s.RR_signal s.RR_reset_point phase input
  let amp := rs.2
  let orig_factor := agc_raw_factor s amp
  let nrState := agc_nr_next s.nr_onthres s.nr_offthres s.nr_state amp
  let dsState := agc_ds_next s.ds_bias s.ds_state rh.2 rl.2
  let factor := agc_target_factor s amp rh.2 rl.2
  let duck := agc_ducker_step s mic_is_mute factor amp
  let latch := s.out_pos.toNat % 8 = 0
  { s with
    RC_F_DS := ⟨c, ⟨ds_input, lp, bp, hp⟩⟩
    RR_DS_high := rh.1
    RR_DS_low := rl.1
    RR_signal := rs.1
    nr_state := nrState
    ds_state := dsState
    gain := agc_gain_ramp s.gain_interval_amount factor s.gain
    df := duck.1
    ducker_hold_timer := duck.2
    meter_red := if latch then orig_factor / s.ratio else s.meter_red
    meter_yellow := if latch then (if dsState = 1 then s.ds_gain else 1)
      else s.meter_yellow
    meter_green := if latch then (if nrState = 1 then s.nr_gain else 1)
      else s.meter_green }

/-- `agc_process_stage2`: a no-op unless the channel is its own host. -/
def agc_process_stage2 (w : World) (i : Nat) (mic_is_mute : Bool) : World :=
  if (w i).host = i then Function.update w i (agc_stage2_host w i mic_is_mute)
  else w

/-- The gain factor `agc_process_stage3` applies: the host's gain. -/
def agc_stage3_gain (w : World) (i : Nat) : ℚ := (w ((w i).host)).gain

/-- `agc_process_stage3`: emit the delayed sample scaled by the host's
gain. -/
def agc_process_stage3 (w : World) (i : Nat) : ℚ :=
  (w i).buffer.getD ((w i).out_pos.tmod (w i).buffer_len).toNat 0 *
    agc_stage3_gain w i

/-- The inner closure `level2db` of `agc_get_meter_levels`:
`(int)(log10f(level) * -20.0f)`, with `log10f` supplied as `log10q`. -/
def level2db (log10q : ℚ → ℚ) (level : ℚ) : Int :=
  truncToInt (log10q level * (-20))

/-- `agc_get_meter_levels`. -/
def agc_get_meter_levels (log10q : ℚ → ℚ) (s : Agc) : Int × Int × Int :=
  (level2db log10q s.meter_red, level2db log10q s.meter_yellow,
    level2db log10q s.meter_green)

/-- `agc_get_ducking_factor`. -/
def agc_get_ducking_factor (s : Agc) : ℚ := s.df

/-- `agc_reset_stats`: set `df` and the three meters to `1.0f`. -/
def agc_reset_stats (s : Agc) : Agc :=
  { s with df := 1, meter_red := 1, meter_yellow := 1, meter_green := 1 }

/-- `setup_ratio`: `ratio = powf(10, ratio_db / 20)` and
`gain_interval_amount = ratio / buffer_len`. -/
def setup_ratio (pow : ℚ → ℚ → ℚ) (s : Agc) (ratio_db : ℚ) : Agc :=
  let r := pow 10 (ratio_db / 20)
  { s with ratio := r, gain_interval_amount := r / (s.buffer_len : ℚ) }

/-- `setup_subsonic`: recompute the coefficients of all four subsonic
stages (the C loop writes the same coefficient set, with `q = 0.375f`, to
each of the four array entries). -/
def setup_subsonic (s : Agc) (fCutoff : ℚ) : Agc :=
  { s with RC_HPF_initial := (s.RC_HPF_initial.map
      (fun fl => ⟨rc_coefficients s.sRate fCutoff (375 / 1000), fl.var⟩)) }

/-- `setup_lfdetail`. -/
def setup_lfdetail (s : Agc) (multi fCutoff : ℚ) : Agc :=
  { s with lf_detail := multi
           RC_LPF_detail := ⟨rc_coefficients s.sRate fCutoff (375 / 1000),
             s.RC_LPF_detail.var⟩ }

/-- `setup_hfdetail`. -/
def setup_hfdetail (s : Agc) (multi fCutoff : ℚ) : Agc :=
  { s with hf_detail := multi
           RC_HPF_detail := ⟨rc_coefficients s.sRate fCutoff (375 / 1000),
             s.RC_HPF_detail.var⟩ }

/-- `agc_set_as_partners`: make the two channels mutual partners. -/
def agc_set_as_partners (w : World) (i j : Nat) : World :=
  let w1 := Function.update w i { w i with partner := j }
  Function.update w1 j { w1 j with partner := i }

/-- `agc_set_partnered_mode`: point `host` at the partner or back at
self. -/
def agc_set_partnered_mode (w : World) (i : Nat) (b : Bool) : World :=
  let s := w i
  Function.update w i { s with host := if b then s.partner else i }

/-- The reset phase points `agc_init` computes for the envelope followers:
`p4 = buffer_len * 2`, slots reset at `0`, `p4*1/4`, `p4*2/4`, `p4*3/4`
(C integer division). -/
def agc_reset_points (len : Int) : Quad Int :=
  let p4 := len * 2
  ⟨0, (p4 * 1).tdiv 4, (p4 * 2).tdiv 4, (p4 * 3).tdiv 4⟩

/-- `agc_init`: build a channel at identifier `selfId` (its own address in
the C code).  Allocation is modelled as always succeeding; the allocated
struct starts as `agcZero` (`calloc`), then the fields are assigned in
source order.  `buffer_len = sRate * lookahead` truncates the float
product to `int`. -/
def agc_init (pow : ℚ → ℚ → ℚ) (selfId : Nat) (sRate : Int)
    (lookahead : ℚ) : Agc :=
  let len := truncToInt ((sRate : ℚ) * lookahead)
  let s0 := { agcZero with
    buffer_len := len
    sRate := sRate
    buffer := List.replicate len.toNat 0
    host := selfId
    partner := selfId
    RR_reset_point := agc_reset_points len }
  let s1 := setup_ratio pow s0 3
  let s2 := { s1 with
    limit := 707 / 1000
    in_pos := len - 1
    out_pos := 1
    gain := 0
    nr_onthres := 1 / 10
    nr_offthres := 1001 / 10000
    nr_gain := 1 / 2
    ds_bias := 35 / 100
    ds_gain := 1 / 2
    meter_red := 1
    meter_yellow := 1
    meter_green := 1
    ducker_release := 1 / ((250 / 1000) * (sRate : ℚ))
    ducker_attack := 1 / (len : ℚ)
    ducker_hold_timer_resetval := truncToInt ((500 / 1000) * (sRate : ℚ))
    df := 1 }
  let s3 := { setup_subsonic s2 100 with hpstages := 4 }
  let s4 := setup_hfdetail s3 4 2000
  let s5 := setup_lfdetail s4 4 150
  let phr := rc_coefficients sRate 300 0
  { s5 with
    use_phaserotator := 1
    RC_PHR := ⟨⟨phr, s5.RC_PHR.s0.var⟩, ⟨phr, s5.RC_PHR.s1.var⟩,
      ⟨phr, s5.RC_PHR.s2.var⟩, ⟨phr, s5.RC_PHR.s3.var⟩⟩
    RC_F_DS := ⟨rc_coefficients sRate 1000 1, s5.RC_F_DS.var⟩ }

/-- `agc_valueparse`: live parameter update.  `v` stands for the value the
C code reads with `strtof(value, NULL)` and `vi` for `atoi(value)` (the
theorems quantify over every possible parse result); the raw `value`
string is still consulted where the C code inspects `value[0]`.  The
missing `return` after the `hpstages` branch of the source is kept: that
branch falls through to the remaining key comparisons. -/
def agc_valueparse (pow : ℚ → ℚ → ℚ) (v : ℚ) (vi : Int)
    (key value : String) (s : Agc) : Agc :=
  if key = "phaserotate" then
    { s with use_phaserotator := if value.front = '1' then 1 else 0 }
  else if key = "gain" then setup_ratio pow s v
  else if key = "limit" then { s with limit := pow 2 (v / 6) }
  else if key = "ngthresh" then
    { s with nr_onthres := pow 2 ((v - 1) / 6)
             nr_offthres := pow 2 ((v + 1) / 6) }
  else if key = "nggain" then { s with nr_gain := pow 2 (v / 6) }
  else if key = "duckenable" then
    { s with use_ducker := if value.front = '1' then 1 else 0 }
  else if key = "duckrelease" then
    { s with ducker_release := 1000 / (v * (s.sRate : ℚ)) }
  else if key = "duckhold" then
    { s with ducker_hold_timer_resetval := (vi * s.sRate).tdiv 1000 }
  else if key = "deessbias" then { s with ds_bias := v }
  else if key = "deessgain" then { s with ds_gain := pow 2 (v / 6) }
  else if key = "hpcutoff" then setup_subsonic s v
  else
    let s1 := if key = "hpstages" then
      { s with hpstages := truncToInt (v + 1 / 2) } else s
    if key = "hfmulti" then setup_hfdetail s1 v s1.RC_HPF_detail.coe.f
    else if key = "hfcutoff" then setup_hfdetail s1 s1.hf_detail v
    else if key = "lfmulti" then setup_lfdetail s1 v s1.RC_LPF_detail.coe.f
    else if key = "lfcutoff" then setup_lfdetail s1 s1.lf_detail v
    else s1

/-- The keys `agc_valueparse` recognizes. -/
def recognizedKeys : List String :=
  ["phaserotate", "gain", "limit", "ngthresh", "nggain", "duckenable",
   "duckrelease", "duckhold", "deessbias", "deessgain", "hpcutoff",
   "hpstages", "hfmulti", "hfcutoff", "lfmulti", "lfcutoff"]

/-- The operations the audio callback and the GUI may perform on a channel
after `agc_init` (stage 3 reads a sample but mutates nothing). -/
inductive AgcOp where
  | stage1 (input : ℚ)
  | stage2 (mute : Bool)
  | stage3
  | setParam (pow : ℚ → ℚ → ℚ) (v : ℚ) (vi : Int) (key value : String)
  | resetStats

/-- Perform one operation on channel `i`. -/
def runOp (i : Nat) (w : World) : AgcOp → World
  | .stage1 x => agc_process_stage1 w i x
  | .stage2 m => agc_process_stage2 w i m
  | .stage3 => w
  | .setParam pow v vi key value =>
    Function.update w i (agc_valueparse pow v vi key value (w i))
  | .resetStats => Function.update w i (agc_reset_stats (w i))

/-- Perform a sequence of operations on channel `i`. -/
def runOps (i : Nat) (w : World) (ops : List AgcOp) : World :=
  ops.foldl (runOp i) w

/-- Whether an operation is a parameter update with the `duckenable` key. -/
def AgcOp.isDuckEnableKey : AgcOp → Bool
  | .setParam _ _ _ key _ => key = "duckenable"
  | _ => false

/-- A world holding one freshly initialised channel at id 0 (the spare ids
hold the zero state; nothing points at them). -/
def initWorld (pow : ℚ → ℚ → ℚ) (sRate : Int) (lookahead : ℚ) : World :=
  fun n => if n = 0 then agc_init pow 0 sRate lookahead else agcZero

/-- C9: `agc_reset_stats` followed by `agc_get_meter_levels` returns
`(0, 0, 0)` dB, and `agc_get_ducking_factor` immediately after
`agc_reset_stats` returns `1.0` — for any channel state, given only that
the modelled `log10f` sends 1 to 0 (as the float function does exactly). -/
theorem c9_reset_stats_round_trip (log10q : ℚ → ℚ) (s : Agc)
    (h : log10q 1 = 0) :
    agc_get_meter_levels log10q (agc_reset_stats s) = (0, 0, 0) ∧
    agc_get_ducking_factor (agc_reset_stats s) = 1 := by
  refine ⟨?_, rfl⟩
  simp [agc_get_meter_levels, agc_reset_stats, level2db, h, truncToInt]

/-- Witness for C9 at a concrete state and a concrete `log10f` model. -/
theorem c9_witness :
    (fun _ : ℚ => (0 : ℚ)) 1 = 0 ∧
    (agc_get_meter_levels (fun _ : ℚ => (0 : ℚ)) (agc_reset_stats agcZero) =
        (0, 0, 0) ∧
      agc_get_ducking_factor (agc_reset_stats agcZero) = 1) :=
  ⟨rfl, c9_reset_stats_round_trip (fun _ => 0) agcZero rfl⟩

/-- C3: on a control update the target gain before ramping equals
`min(limit / (amp + 0.0001), ratio)`, multiplied by the noise-gate
attenuation exactly when the updated gate state is CLOSED and by the
de-esser attenuation exactly when the updated de-esser state is ACTIVE. -/
theorem c3_target_gain_formula (s : Agc) (amp dsh dsl : ℚ) :
    agc_target_factor s amp dsh dsl =
      min (s.limit / (amp + 1 / 10000)) s.ratio *
        (if agc_nr_next s.nr_onthres s.nr_offthres s.nr_state amp = 1
          then s.nr_gain else 1) *
        (if agc_ds_next s.ds_bias s.ds_state dsh dsl = 1
          then s.ds_gain else 1) := by
  have hmin : (if s.limit / (amp + 1 / 10000) > s.ratio then s.ratio
      else s.limit / (amp + 1 / 10000)) =
      min (s.limit / (amp + 1 / 10000)) s.ratio := by
    rcases le_or_lt (s.limit / (amp + 1 / 10000)) s.ratio with hle | hlt
    · rw [if_neg (not_lt.mpr hle), min_eq_left hle]
    · rw [if_pos hlt, min_eq_right hlt.le]
  unfold agc_target_factor agc_raw_factor
  rw [hmin]
  split_ifs <;> ring

/-- The gain field a control update writes is the ramp applied to the old
gain with the channel's interval amount (for some target factor). -/
theorem stage2_host_gain (w : World) (i : Nat) (m : Bool) :
    ∃ f, (agc_stage2_host w i m).gain =
      agc_gain_ramp (w i).gain_interval_amount f (w i).gain :=
  ⟨_, rfl⟩

/-- The ramp moves the gain by at most the interval amount. -/
theorem abs_gain_ramp_sub_le (gia f g : ℚ) (h : 0 ≤ gia) :
    |agc_gain_ramp gia f g - g| ≤ gia := by
  simp only [agc_gain_ramp]
  split_ifs <;> rw [abs_le] <;> constructor <;> linarith

/-- C5: noise-gate hysteresis.  With the offset threshold at or above the
onset threshold (the configuration every reachable state has), an OPEN
gate transitions to CLOSED exactly when the level is below the onset
threshold, a CLOSED gate transitions to OPEN exactly when the level is
above the offset threshold, and a run of control updates whose levels stay
strictly between the two thresholds never changes the state at all (so at
most once). -/
theorem c5_noise_gate_hysteresis :
    (∀ (onthres offthres : ℚ) (st : Int) (amp : ℚ),
      onthres ≤ offthres →
      (st = 0 → (agc_nr_next onthres offthres st amp = 1 ↔ amp < onthres)) ∧
      (st = 1 → (agc_nr_next onthres offthres st amp = 0 ↔ offthres < amp))) ∧
    (∀ (onthres offthres : ℚ) (st : Int) (amps : List ℚ),
      (∀ a ∈ amps, onthres < a ∧ a < offthres) →
      amps.foldl (fun t a => agc_nr_next onthres offthres t a) st = st) := by
  constructor
  · intro onthres offthres st amp hoo
    unfold agc_nr_next
    constructor
    · rintro rfl
      split_ifs with h1 h2 <;> simp_all
      linarith
    · rintro rfl
      split_ifs with h1 h2 <;> simp_all
  · intro onthres offthres st amps hin
    induction amps generalizing st with
    | nil => rfl
    | cons a as ih =>
      have ha := hin a (List.mem_cons_self a as)
      have hstep : agc_nr_next onthres offthres st a = st := by
        unfold agc_nr_next
        rw [if_neg (by exact not_lt.mpr ha.2.le), if_neg (by
          exact not_lt.mpr ha.1.le)]
      rw [List.foldl_cons, hstep]
      exact ih _ fun b hb => hin b (List.mem_cons_of_mem a hb)

/-- Witness for C5: concrete thresholds 0 and 1, a transition check at
level −1 from the OPEN state, and a three-update run strictly inside the
hysteresis band. -/
theorem c5_witness :
    ((0 : ℚ) ≤ 1 ∧
      ((0 : Int) = 0 →
        (agc_nr_next 0 1 0 (-1) = 1 ↔ (-1 : ℚ) < 0)) ∧
      ((0 : Int) = 1 →
        (agc_nr_next 0 1 0 (-1) = 0 ↔ (1 : ℚ) < -1))) ∧
    ((0 : ℚ) ≤ 1 ∧
      ((1 : Int) = 0 →
        (agc_nr_next 0 1 1 2 = 1 ↔ (2 : ℚ) < 0)) ∧
      ((1 : Int) = 1 →
        (agc_nr_next 0 1 1 2 = 0 ↔ (1 : ℚ) < 2))) ∧
    ((∀ a ∈ [(1 : ℚ) / 2, 1 / 4, 3 / 4], (0 : ℚ) < a ∧ a < 1) ∧
      [(1 : ℚ) / 2, 1 / 4, 3 / 4].foldl (fun t a => agc_nr_next 0 1 t a) 0
        = 0) :=
  ⟨⟨by with_unfolding_all decide,
    c5_noise_gate_hysteresis.1 0 1 0 (-1) (by with_unfolding_all decide)⟩,
   ⟨by with_unfolding_all decide,
    c5_noise_gate_hysteresis.1 0 1 1 2 (by with_unfolding_all decide)⟩,
   ⟨by with_unfolding_all decide,
    c5_noise_gate_hysteresis.2 0 1 0 [1 / 2, 1 / 4, 3 / 4]
      (by with_unfolding_all decide)⟩⟩

/-- C2: on a control update of a self-hosted channel whose interval amount
is `ratio / buffer_len` (as `setup_ratio` always makes it, and it is
nonnegative in every reachable state since `ratio = powf(10, x) > 0`), the
applied gain moves by at most `ratio / buffer_len` in absolute value; and
`setup_ratio` re-establishes `gain_interval_amount = ratio / buffer_len`
whenever the ratio parameter changes. -/
theorem c2_gain_ramp_bound :
    (∀ (w : World) (i : Nat) (m : Bool),
      (w i).host = i →
      (w i).gain_interval_amount = (w i).ratio / ((w i).buffer_len : ℚ) →
      0 ≤ (w i).gain_interval_amount →
      |((agc_process_stage2 w i m) i).gain - (w i).gain| ≤
        (w i).ratio / ((w i).buffer_len : ℚ)) ∧
    (∀ (pow : ℚ → ℚ → ℚ) (s : Agc) (r : ℚ),
      (setup_ratio pow s r).gain_interval_amount =
        (setup_ratio pow s r).ratio /
          ((setup_ratio pow s r).buffer_len : ℚ)) := by
  constructor
  · intro w i m h1 h2 h3
    rw [agc_process_stage2, if_pos h1, Function.update_same]
    obtain ⟨f, hf⟩ := stage2_host_gain w i m
    rw [hf, ← h2]
    exact abs_gain_ramp_sub_le _ f _ h3
  · intro pow s r
    rfl

/-- Witness for C2 on a freshly initialised channel (sample rate 4,
lookahead 1 s, the `powf` model returning 1 so `ratio = 1` and the
interval amount is `1/4`). -/
theorem c2_witness :
    ((initWorld (fun _ _ => 1) 4 1) 0).host = 0 ∧
    ((initWorld (fun _ _ => 1) 4 1) 0).gain_interval_amount =
      ((initWorld (fun _ _ => 1) 4 1) 0).ratio /
        (((initWorld (fun _ _ => 1) 4 1) 0).buffer_len : ℚ) ∧
    0 ≤ ((initWorld (fun _ _ => 1) 4 1) 0).gain_interval_amount ∧
    |((agc_process_stage2 (initWorld (fun _ _ => 1) 4 1) 0 false) 0).gain -
        ((initWorld (fun _ _ => 1) 4 1) 0).gain| ≤
      ((initWorld (fun _ _ => 1) 4 1) 0).ratio /
        (((initWorld (fun _ _ => 1) 4 1) 0).buffer_len : ℚ) :=
  ⟨rfl, by with_unfolding_all decide, by with_unfolding_all decide,
    c2_gain_ramp_bound.1 (initWorld (fun _ _ => 1) 4 1) 0 false rfl
      (by with_unfolding_all decide) (by with_unfolding_all decide)⟩

/-- The frame a parameter update must preserve: pointers, delay line,
cursors, applied gain, and every filter's running state (`var`
accumulators). -/
def sameCore (s t : Agc) : Prop :=
  t.host = s.host ∧ t.partner = s.partner ∧ t.buffer = s.buffer ∧
  t.buffer_len = s.buffer_len ∧ t.in_pos = s.in_pos ∧
  t.out_pos = s.out_pos ∧ t.gain = s.gain ∧
  t.RC_HPF_initial.map RC_Filter.var = s.RC_HPF_initial.map RC_Filter.var ∧
  t.RC_HPF_detail.var = s.RC_HPF_detail.var ∧
  t.RC_LPF_detail.var = s.RC_LPF_detail.var ∧
  t.RC_PHR.s0.var = s.RC_PHR.s0.var ∧ t.RC_PHR.s1.var = s.RC_PHR.s1.var ∧
  t.RC_PHR.s2.var = s.RC_PHR.s2.var ∧ t.RC_PHR.s3.var = s.RC_PHR.s3.var ∧
  t.RC_F_DS.var = s.RC_F_DS.var

/-- C10: a parameter update never touches the pointers, the delay line,
the cursors, the applied gain, or any filter's running state; and an
unrecognized key changes nothing at all. -/
theorem c10_valueparse_frame :
    (∀ (pow : ℚ → ℚ → ℚ) (v : ℚ) (vi : Int) (key value : String) (s : Agc),
      sameCore s (agc_valueparse pow v vi key value s)) ∧
    (∀ (pow : ℚ → ℚ → ℚ) (v : ℚ) (vi : Int) (key value : String) (s : Agc),
      key ∉ recognizedKeys → agc_valueparse pow v vi key value s = s) := by
  constructor
  · intro pow v vi key value s
    unfold agc_valueparse
    by_cases k1 : key = "phaserotate"
    case pos =>
      simp only [if_pos k1]
      exact ⟨rfl, rfl, rfl, rfl, rfl, rfl, rfl, rfl, rfl, rfl, rfl, rfl, rfl, rfl, rfl⟩
    simp only [if_neg k1]
    by_cases k2 : key = "gain"
    case pos =>
      simp only [if_pos k2]
      exact ⟨rfl, rfl, rfl, rfl, rfl, rfl, rfl, rfl, rfl, rfl, rfl, rfl, rfl, rfl, rfl⟩
    simp only [if_neg k2]
    by_cases k3 : key = "limit"
    case pos =>
      simp only [if_pos k3]
      exact ⟨rfl, rfl, rfl, rfl, rfl, rfl, rfl, rfl, rfl, rfl, rfl, rfl, rfl, rfl, rfl⟩
    simp only [if_neg k3]
    by_cases k4 : key = "ngthresh"
    case pos =>
      simp only [if_pos k4]
      exact ⟨rfl, rfl, rfl, rfl, rfl, rfl, rfl, rfl, rfl, rfl, rfl, rfl, rfl, rfl, rfl⟩
    simp only [if_neg k4]
    by_cases k5 : key = "nggain"
    case pos =>
      simp only [if_pos k5]
      exact ⟨rfl, rfl, rfl, rfl, rfl, rfl, rfl, rfl, rfl, rfl, rfl, rfl, rfl, rfl, rfl⟩
    simp only [if_neg k5]
    by_cases k6 : key = "duckenable"
    case pos =>
      simp only [if_pos k6]
      exact ⟨rfl, rfl, rfl, rfl, rfl, rfl, rfl, rfl, rfl, rfl, rfl, rfl, rfl, rfl, rfl⟩
    simp only [if_neg k6]
    by_cases k7 : key = "duckrelease"
    case pos =>
      simp only [if_pos k7]
      exact ⟨rfl, rfl, rfl, rfl, rfl, rfl, rfl, rfl, rfl, rfl, rfl, rfl, rfl, rfl, rfl⟩
    simp only [if_neg k7]
    by_cases k8 : key = "duckhold"
    case pos =>
      simp only [if_pos k8]
      exact ⟨rfl, rfl, rfl, rfl, rfl, rfl, rfl, rfl, rfl, rfl, rfl, rfl, rfl, rfl, rfl⟩
    simp only [if_neg k8]
    by_cases k9 : key = "deessbias"
    case pos =>
      simp only [if_pos k9]
      exact ⟨rfl, rfl, rfl, rfl, rfl, rfl, rfl, rfl, rfl, rfl, rfl, rfl, rfl, rfl, rfl⟩
    simp only [if_neg k9]
    by_cases k10 : key = "deessgain"
    case pos =>
      simp only [if_pos k10]
      exact ⟨rfl, rfl, rfl, rfl, rfl, rfl, rfl, rfl, rfl, rfl, rfl, rfl, rfl, rfl, rfl⟩
    simp only [if_neg k10]
    by_cases k11 : key = "hpcutoff"
    case pos =>
      simp only [if_pos k11]
      refine ⟨rfl, rfl, rfl, rfl, rfl, rfl, rfl, ?_, rfl, rfl, rfl, rfl,
        rfl, rfl, rfl⟩
      simp [setup_subsonic, List.map_map, Function.comp]
    simp only [if_neg k11]
    by_cases k12 : key = "hpstages"
    case pos =>
      simp only [if_pos k12, k12]
      exact ⟨rfl, rfl, rfl, rfl, rfl, rfl, rfl, rfl, rfl, rfl, rfl, rfl, rfl, rfl, rfl⟩
    simp only [if_neg k12]
    by_cases k13 : key = "hfmulti"
    case pos =>
      simp only [if_pos k13]
      exact ⟨rfl, rfl, rfl, rfl, rfl, rfl, rfl, rfl, rfl, rfl, rfl, rfl, rfl, rfl, rfl⟩
    simp only [if_neg k13]
    by_cases k14 : key = "hfcutoff"
    case pos =>
      simp only [if_pos k14]
      exact ⟨rfl, rfl, rfl, rfl, rfl, rfl, rfl, rfl, rfl, rfl, rfl, rfl, rfl, rfl, rfl⟩
    simp only [if_neg k14]
    by_cases k15 : key = "lfmulti"
    case pos =>
      simp only [if_pos k15]
      exact ⟨rfl, rfl, rfl, rfl, rfl, rfl, rfl, rfl, rfl, rfl, rfl, rfl, rfl, rfl, rfl⟩
    simp only [if_neg k15]
    by_cases k16 : key = "lfcutoff"
    case pos =>
      simp only [if_pos k16]
      exact ⟨rfl, rfl, rfl, rfl, rfl, rfl, rfl, rfl, rfl, rfl, rfl, rfl, rfl, rfl, rfl⟩
    simp only [if_neg k16]
    exact ⟨rfl, rfl, rfl, rfl, rfl, rfl, rfl, rfl, rfl, rfl, rfl, rfl, rfl, rfl, rfl⟩
  · intro pow v vi key value s h
    simp only [recognizedKeys, List.mem_cons, List.not_mem_nil, or_false,
      not_or] at h
    obtain ⟨h1, h2, h3, h4, h5, h6, h7, h8, h9, h10, h11, h12, h13, h14,
      h15, h16⟩ := h
    simp [agc_valueparse, h1, h2, h3, h4, h5, h6, h7, h8, h9, h10, h11,
      h12, h13, h14, h15, h16]

/-- Witness for C10: the unrecognized key `bogus` leaves a concrete state
untouched. -/
theorem c10_witness :
    "bogus" ∉ recognizedKeys ∧
    agc_valueparse (fun _ _ => 0) 0 0 "bogus" "" agcZero = agcZero :=
  ⟨by decide,
    c10_valueparse_frame.2 (fun _ _ => 0) 0 0 "bogus" "" agcZero (by decide)⟩

/-- Truncation toward zero agrees with the floor on nonnegative
rationals. -/
theorem truncToInt_eq_floor (q : ℚ) (h : 0 ≤ q) : truncToInt q = ⌊q⌋ := by
  rw [truncToInt, Int.tdiv_eq_ediv (Rat.num_nonneg.mpr h)
    (Int.ofNat_nonneg q.den)]
  conv_rhs => rw [← Rat.num_div_den q]
  rw [Rat.floor_intCast_div_natCast]

/-- C7 (amended): for positive sample rate and lookahead, `agc_init` sizes
the delay line to `sampleRate * lookaheadSeconds` truncated to an integer,
and that capacity is at least 1 whenever the product is at least 1 (the
code never clamps: products under 1 truncate to 0, see the
counterexample). -/
theorem c7_capacity (pow : ℚ → ℚ → ℚ) (selfId : Nat) (sRate : Int)
    (lookahead : ℚ) (hs : 0 < sRate) (hl : 0 < lookahead)
    (hprod : 1 ≤ (sRate : ℚ) * lookahead) :
    (agc_init pow selfId sRate lookahead).buffer_len =
      truncToInt ((sRate : ℚ) * lookahead) ∧
    1 ≤ (agc_init pow selfId sRate lookahead).buffer_len := by
  refine ⟨rfl, ?_⟩
  show (1 : Int) ≤ truncToInt ((sRate : ℚ) * lookahead)
  rw [truncToInt_eq_floor _ (by linarith)]
  exact Int.le_floor.mpr (by exact_mod_cast hprod)

/-- Witness for C7: 48000 Hz at 10 ms of lookahead gives 480 samples. -/
theorem c7_witness :
    (0 : Int) < 48000 ∧ (0 : ℚ) < 1 / 100 ∧
      (1 : ℚ) ≤ ((48000 : Int) : ℚ) * (1 / 100) ∧
    ((agc_init (fun _ _ => 1) 0 48000 (1 / 100)).buffer_len =
        truncToInt (((48000 : Int) : ℚ) * (1 / 100)) ∧
      1 ≤ (agc_init (fun _ _ => 1) 0 48000 (1 / 100)).buffer_len) :=
  ⟨by decide, by with_unfolding_all decide, by with_unfolding_all decide,
    c7_capacity (fun _ _ => 1) 0 48000 (1 / 100) (by decide)
      (by with_unfolding_all decide) (by with_unfolding_all decide)⟩

/-- Counterexample to C7 as stated: at sample rate 1 and lookahead 0.5 s
the product truncates to 0, so a successful `agc_init` yields a delay-line
capacity of 0, not at least 1. -/
theorem c7_counterexample :
    (0 : Int) < 1 ∧ (0 : ℚ) < 1 / 2 ∧
    (agc_init (fun _ _ => 1) 0 1 (1 / 2)).buffer_len = 0 ∧
    ¬1 ≤ (agc_init (fun _ _ => 1) 0 1 (1 / 2)).buffer_len := by
  refine ⟨by decide, by with_unfolding_all decide, ?_, ?_⟩ <;>
    with_unfolding_all decide

/-- C1 (amended): the write cursor leads the read cursor by exactly
`buffer_len - 2` — not `buffer_len` — and this offset is established by
`agc_init` (`in_pos = buffer_len - 1`, `out_pos = 1`) and preserved by
every call to the filtering/store operation, which advances both cursors
together (the buffer length itself never changes). -/
theorem c1_cursor_offset :
    (∀ (pow : ℚ → ℚ → ℚ) (selfId : Nat) (sRate : Int) (lookahead : ℚ),
      (agc_init pow selfId sRate lookahead).in_pos -
          (agc_init pow selfId sRate lookahead).out_pos =
        (agc_init pow selfId sRate lookahead).buffer_len - 2) ∧
    (∀ (w : World) (i : Nat) (x : ℚ),
      ((agc_process_stage1 w i x) i).in_pos -
          ((agc_process_stage1 w i x) i).out_pos =
        (w i).in_pos - (w i).out_pos ∧
      ((agc_process_stage1 w i x) i).buffer_len = (w i).buffer_len) := by
  constructor
  · intro pow selfId sRate lookahead
    show truncToInt ((sRate : ℚ) * lookahead) - 1 - 1 =
      truncToInt ((sRate : ℚ) * lookahead) - 2
    ring
  · intro w i x
    unfold agc_process_stage1
    rw [Function.update_same]
    refine ⟨?_, rfl⟩
    show (w i).in_pos + 1 - ((w i).out_pos + 1) = (w i).in_pos - (w i).out_pos
    omega

/-- Counterexample to C1 as stated: a channel from `agc_init` with
`buffer_len = 4`, after a full warm-up of 4 filtering/store calls, has
`in_pos - out_pos = 2`, not `buffer_len = 4` (the source initialises
`in_pos = buffer_len - 1` and `out_pos = 1`). -/
theorem c1_counterexample :
    ((agc_process_stage1 (agc_process_stage1 (agc_process_stage1
          (agc_process_stage1 (initWorld (fun _ _ => 1) 4 1) 0 0) 0 0) 0 0)
        0 0) 0).in_pos -
        ((agc_process_stage1 (agc_process_stage1 (agc_process_stage1
          (agc_process_stage1 (initWorld (fun _ _ => 1) 4 1) 0 0) 0 0) 0 0)
        0 0) 0).out_pos = 2 ∧
    ((agc_process_stage1 (agc_process_stage1 (agc_process_stage1
          (agc_process_stage1 (initWorld (fun _ _ => 1) 4 1) 0 0) 0 0) 0 0)
        0 0) 0).buffer_len = 4 ∧
    ((agc_process_stage1 (agc_process_stage1 (agc_process_stage1
          (agc_process_stage1 (initWorld (fun _ _ => 1) 4 1) 0 0) 0 0) 0 0)
        0 0) 0).in_pos -
        ((agc_process_stage1 (agc_process_stage1 (agc_process_stage1
          (agc_process_stage1 (initWorld (fun _ _ => 1) 4 1) 0 0) 0 0) 0 0)
        0 0) 0).out_pos ≠
      ((agc_process_stage1 (agc_process_stage1 (agc_process_stage1
          (agc_process_stage1 (initWorld (fun _ _ => 1) 4 1) 0 0) 0 0) 0 0)
        0 0) 0).buffer_len := by
  refine ⟨?_, ?_, ?_⟩ <;> with_unfolding_all decide

/-- C8: after `agc_set_as_partners(a, b)` and
`agc_set_partnered_mode(b, true)` (with `a` self-hosted, as `agc_init`
makes it), a control update on `b` changes nothing at all, and the gain
factor `agc_process_stage3` applies on `b` equals the one it applies on
`a` (both read the shared host gain, each over its own delay line). -/
theorem c8_partnered_mode (w : World) (m : Bool) (ha : (w 0).host = 0) :
    agc_process_stage2
        (agc_set_partnered_mode (agc_set_as_partners w 0 1) 1 true) 1 m =
      agc_set_partnered_mode (agc_set_as_partners w 0 1) 1 true ∧
    agc_stage3_gain
        (agc_set_partnered_mode (agc_set_as_partners w 0 1) 1 true) 1 =
      agc_stage3_gain
        (agc_set_partnered_mode (agc_set_as_partners w 0 1) 1 true) 0 := by
  constructor
  · rw [agc_process_stage2, if_neg]
    simp [agc_set_partnered_mode, agc_set_as_partners, Function.update]
  · simp [agc_stage3_gain, agc_set_partnered_mode, agc_set_as_partners,
      Function.update, ha]

/-- Witness for C8 on two freshly initialised channels. -/
theorem c8_witness :
    ((fun n => agc_init (fun _ _ => 1) n 4 1 : World) 0).host = 0 ∧
    (agc_process_stage2
        (agc_set_partnered_mode
          (agc_set_as_partners (fun n => agc_init (fun _ _ => 1) n 4 1) 0 1)
          1 true) 1 false =
      agc_set_partnered_mode
        (agc_set_as_partners (fun n => agc_init (fun _ _ => 1) n 4 1) 0 1)
        1 true ∧
    agc_stage3_gain
        (agc_set_partnered_mode
          (agc_set_as_partners (fun n => agc_init (fun _ _ => 1) n 4 1) 0 1)
          1 true) 1 =
      agc_stage3_gain
        (agc_set_partnered_mode
          (agc_set_as_partners (fun n => agc_init (fun _ _ => 1) n 4 1) 0 1)
          1 true) 0) :=
  ⟨rfl, c8_partnered_mode (fun n => agc_init (fun _ _ => 1) n 4 1) false rfl⟩

/-- A parameter update never changes the ducking factor, and changes
`use_ducker` only through the `duckenable` key. -/
theorem valueparse_keeps_ducker (pow : ℚ → ℚ → ℚ) (v : ℚ) (vi : Int)
    (key value : String) (s : Agc) (hk : key ≠ "duckenable") :
    (agc_valueparse pow v vi key value s).df = s.df ∧
    (agc_valueparse pow v vi key value s).use_ducker = s.use_ducker := by
  unfold agc_valueparse
  by_cases k1 : key = "phaserotate"
  case pos =>
    simp [if_pos k1, setup_ratio, setup_subsonic, setup_hfdetail,
      setup_lfdetail]
  simp only [if_neg k1]
  by_cases k2 : key = "gain"
  case pos =>
    simp [if_pos k2, setup_ratio, setup_subsonic, setup_hfdetail,
      setup_lfdetail]
  simp only [if_neg k2]
  by_cases k3 : key = "limit"
  case pos =>
    simp [if_pos k3, setup_ratio, setup_subsonic, setup_hfdetail,
      setup_lfdetail]
  simp only [if_neg k3]
  by_cases k4 : key = "ngthresh"
  case pos =>
    simp [if_pos k4, setup_ratio, setup_subsonic, setup_hfdetail,
      setup_lfdetail]
  simp only [if_neg k4]
  by_cases k5 : key = "nggain"
  case pos =>
    simp [if_pos k5, setup_ratio, setup_subsonic, setup_hfdetail,
      setup_lfdetail]
  simp only [if_neg k5]
  simp only [if_neg hk]
  by_cases k7 : key = "duckrelease"
  case pos =>
    simp [if_pos k7, setup_ratio, setup_subsonic, setup_hfdetail,
      setup_lfdetail]
  simp only [if_neg k7]
  by_cases k8 : key = "duckhold"
  case pos =>
    simp [if_pos k8, setup_ratio, setup_subsonic, setup_hfdetail,
      setup_lfdetail]
  simp only [if_neg k8]
  by_cases k9 : key = "deessbias"
  case pos =>
    simp [if_pos k9, setup_ratio, setup_subsonic, setup_hfdetail,
      setup_lfdetail]
  simp only [if_neg k9]
  by_cases k10 : key = "deessgain"
  case pos =>
    simp [if_pos k10, setup_ratio, setup_subsonic, setup_hfdetail,
      setup_lfdetail]
  simp only [if_neg k10]
  by_cases k11 : key = "hpcutoff"
  case pos =>
    simp [if_pos k11, setup_ratio, setup_subsonic, setup_hfdetail,
      setup_lfdetail]
  simp only [if_neg k11]
  by_cases k12 : key = "hpstages"
  case pos =>
    subst k12
    simp [setup_hfdetail, setup_lfdetail]
  simp only [if_neg k12]
  by_cases k13 : key = "hfmulti"
  case pos =>
    simp [if_pos k13, setup_hfdetail, setup_lfdetail]
  simp only [if_neg k13]
  by_cases k14 : key = "hfcutoff"
  case pos =>
    simp [if_pos k14, setup_hfdetail, setup_lfdetail]
  simp only [if_neg k14]
  by_cases k15 : key = "lfmulti"
  case pos =>
    simp [if_pos k15, setup_hfdetail, setup_lfdetail]
  simp only [if_neg k15]
  by_cases k16 : key = "lfcutoff"
  case pos =>
    simp [if_pos k16, setup_lfdetail]
  simp [if_neg k16]

/-- The filtering/store operation never changes the ducker fields. -/
theorem stage1_keeps_ducker (w : World) (i : Nat) (x : ℚ) :
    ((agc_process_stage1 w i x) i).df = (w i).df ∧
    ((agc_process_stage1 w i x) i).use_ducker = (w i).use_ducker := by
  unfold agc_process_stage1
  rw [Function.update_same]
  exact ⟨rfl, rfl⟩

/-- With the ducker disabled and the factor at rest (`df = 1`), a control
update keeps `df = 1` and keeps the ducker disabled. -/
theorem stage2_keeps_df (w : World) (i : Nat) (m : Bool)
    (h1 : (w i).df = 1) (h2 : (w i).use_ducker = 0) :
    ((agc_process_stage2 w i m) i).df = 1 ∧
    ((agc_process_stage2 w i m) i).use_ducker = 0 := by
  unfold agc_process_stage2
  split_ifs with hh
  · rw [Function.update_same]
    constructor
    · show (agc_ducker_step (w i) m _ _).1 = 1
      unfold agc_ducker_step
      rw [if_pos (Or.inr h2)]
      show (if (w i).df < 1 then (w i).df + (w i).ducker_release else 1) = 1
      rw [h1, if_neg (lt_irrefl 1)]
    · exact h2
  · exact ⟨h1, h2⟩

/-- Running any sequence of operations that never uses the `duckenable`
key, from a state where the ducker is off and `df = 1`, keeps `df = 1`. -/
theorem runOps_ducker_inv (ops : List AgcOp) : ∀ (w : World),
    (w 0).df = 1 → (w 0).use_ducker = 0 →
    (∀ op ∈ ops, op.isDuckEnableKey = false) →
    ((runOps 0 w ops) 0).df = 1 ∧ ((runOps 0 w ops) 0).use_ducker = 0 := by
  induction ops with
  | nil => exact fun w h1 h2 _ => ⟨h1, h2⟩
  | cons op ops ih =>
    intro w h1 h2 h3
    have hop := h3 op (List.mem_cons_self _ _)
    have hstep : ((runOp 0 w op) 0).df = 1 ∧
        ((runOp 0 w op) 0).use_ducker = 0 := by
      cases op with
      | stage1 x =>
        exact ⟨(stage1_keeps_ducker w 0 x).1.trans h1,
          (stage1_keeps_ducker w 0 x).2.trans h2⟩
      | stage2 m => exact stage2_keeps_df w 0 m h1 h2
      | stage3 => exact ⟨h1, h2⟩
      | setParam pow v vi key value =>
        have hk : key ≠ "duckenable" := by
          simpa [AgcOp.isDuckEnableKey] using hop
        simp only [runOp, Function.update_same]
        exact ⟨(valueparse_keeps_ducker pow v vi key value (w 0) hk).1.trans
            h1,
          (valueparse_keeps_ducker pow v vi key value (w 0) hk).2.trans h2⟩
      | resetStats =>
        simp only [runOp, Function.update_same]
        exact ⟨rfl, h2⟩
    have hrest := ih (runOp 0 w op) hstep.1 hstep.2
      (fun o ho => h3 o (List.mem_cons_of_mem _ ho))
    simpa [runOps, List.foldl_cons] using hrest

/-- C6 (amended): for a freshly initialised channel and every sequence of
operations (stage 1/2/3, parameter updates, `agc_reset_stats`) that never
uses the `duckenable` key, the ducking factor stays exactly 1 and hence
within [0, 1].  (Once the ducker is enabled the code does not keep the
factor inside [0, 1]: see the counterexample, where a `limit` above unity
drives it negative.) -/
theorem c6_ducking_factor (pow : ℚ → ℚ → ℚ) (sRate : Int) (la : ℚ)
    (ops : List AgcOp) (h : ∀ op ∈ ops, op.isDuckEnableKey = false) :
    agc_get_ducking_factor ((runOps 0 (initWorld pow sRate la) ops) 0) = 1 ∧
    0 ≤ agc_get_ducking_factor ((runOps 0 (initWorld pow sRate la) ops) 0) ∧
    agc_get_ducking_factor ((runOps 0 (initWorld pow sRate la) ops) 0)
      ≤ 1 := by
  have hinv := runOps_ducker_inv ops (initWorld pow sRate la) rfl rfl h
  have hdf : agc_get_ducking_factor ((runOps 0 (initWorld pow sRate la) ops)
      0) = 1 := hinv.1
  exact ⟨hdf, by rw [hdf]; norm_num, by rw [hdf]⟩

/-- Witness for C6 (amended) on a concrete operation sequence that never
touches `duckenable`. -/
theorem c6_witness :
    (∀ op ∈ [AgcOp.stage1 1, AgcOp.stage2 false, AgcOp.resetStats,
        AgcOp.setParam (fun _ _ => 1) 6 0 "limit" "", AgcOp.stage3],
      op.isDuckEnableKey = false) ∧
    (agc_get_ducking_factor ((runOps 0 (initWorld (fun _ _ => 1) 1 1)
        [AgcOp.stage1 1, AgcOp.stage2 false, AgcOp.resetStats,
          AgcOp.setParam (fun _ _ => 1) 6 0 "limit" "", AgcOp.stage3]) 0)
        = 1 ∧
      0 ≤ agc_get_ducking_factor ((runOps 0 (initWorld (fun _ _ => 1) 1 1)
        [AgcOp.stage1 1, AgcOp.stage2 false, AgcOp.resetStats,
          AgcOp.setParam (fun _ _ => 1) 6 0 "limit" "", AgcOp.stage3]) 0) ∧
      agc_get_ducking_factor ((runOps 0 (initWorld (fun _ _ => 1) 1 1)
        [AgcOp.stage1 1, AgcOp.stage2 false, AgcOp.resetStats,
          AgcOp.setParam (fun _ _ => 1) 6 0 "limit" "", AgcOp.stage3]) 0)
        ≤ 1) :=
  ⟨by decide,
    c6_ducking_factor (fun _ _ => 1) 1 1
      [AgcOp.stage1 1, AgcOp.stage2 false, AgcOp.resetStats,
        AgcOp.setParam (fun _ _ => 1) 6 0 "limit" "", AgcOp.stage3]
      (by decide)⟩

/-- Counterexample to C6 as stated: from `agc_init(1, 1.0)`, set the
compression ratio to 20 dB (`powf(10, 1) = 10`, exact in float), the
limit to 6 dB (`powf(2, 1) = 2 > 1`), disable the de-esser bias, the
subsonic stages, the detail multipliers and the phase rotator, enable the
ducker, feed one full-scale sample, and run two control updates: the
ducking factor becomes −1, outside [0, 1].  (The `pow` model returns the
float-exact values at the two exponent-1 calls actually used; the other
conversions it renders as 3/2 are all overwritten or unused.) -/
theorem c6_counterexample :
    agc_get_ducking_factor
        ((runOps 0 (initWorld (fun b e => if e = 1 then b else 3 / 2) 1 1)
          [AgcOp.setParam (fun b e => if e = 1 then b else 3 / 2) 20 0
              "gain" "",
            AgcOp.setParam (fun b e => if e = 1 then b else 3 / 2) 6 0
              "limit" "",
            AgcOp.setParam (fun b e => if e = 1 then b else 3 / 2) 0 0
              "deessbias" "",
            AgcOp.setParam (fun b e => if e = 1 then b else 3 / 2) (-1 / 2) 0
              "hpstages" "",
            AgcOp.setParam (fun b e => if e = 1 then b else 3 / 2) 0 0
              "hfmulti" "",
            AgcOp.setParam (fun b e => if e = 1 then b else 3 / 2) 0 0
              "lfmulti" "",
            AgcOp.setParam (fun b e => if e = 1 then b else 3 / 2) 0 0
              "duckenable" "1",
            AgcOp.setParam (fun b e => if e = 1 then b else 3 / 2) 0 0
              "phaserotate" "0",
            AgcOp.stage1 1, AgcOp.stage2 false, AgcOp.stage2 false]) 0)
      = -1 ∧
    ¬(0 ≤ agc_get_ducking_factor
        ((runOps 0 (initWorld (fun b e => if e = 1 then b else 3 / 2) 1 1)
          [AgcOp.setParam (fun b e => if e = 1 then b else 3 / 2) 20 0
              "gain" "",
            AgcOp.setParam (fun b e => if e = 1 then b else 3 / 2) 6 0
              "limit" "",
            AgcOp.setParam (fun b e => if e = 1 then b else 3 / 2) 0 0
              "deessbias" "",
            AgcOp.setParam (fun b e => if e = 1 then b else 3 / 2) (-1 / 2) 0
              "hpstages" "",
            AgcOp.setParam (fun b e => if e = 1 then b else 3 / 2) 0 0
              "hfmulti" "",
            AgcOp.setParam (fun b e => if e = 1 then b else 3 / 2) 0 0
              "lfmulti" "",
            AgcOp.setParam (fun b e => if e = 1 then b else 3 / 2) 0 0
              "duckenable" "1",
            AgcOp.setParam (fun b e => if e = 1 then b else 3 / 2) 0 0
              "phaserotate" "0",
            AgcOp.stage1 1, AgcOp.stage2 false, AgcOp.stage2 false]) 0) ∧
      agc_get_ducking_factor
        ((runOps 0 (initWorld (fun b e => if e = 1 then b else 3 / 2) 1 1)
          [AgcOp.setParam (fun b e => if e = 1 then b else 3 / 2) 20 0
              "gain" "",
            AgcOp.setParam (fun b e => if e = 1 then b else 3 / 2) 6 0
              "limit" "",
            AgcOp.setParam (fun b e => if e = 1 then b else 3 / 2) 0 0
              "deessbias" "",
            AgcOp.setParam (fun b e => if e = 1 then b else 3 / 2) (-1 / 2) 0
              "hpstages" "",
            AgcOp.setParam (fun b e => if e = 1 then b else 3 / 2) 0 0
              "hfmulti" "",
            AgcOp.setParam (fun b e => if e = 1 then b else 3 / 2) 0 0
              "lfmulti" "",
            AgcOp.setParam (fun b e => if e = 1 then b else 3 / 2) 0 0
              "duckenable" "1",
            AgcOp.setParam (fun b e => if e = 1 then b else 3 / 2) 0 0
              "phaserotate" "0",
            AgcOp.stage1 1, AgcOp.stage2 false, AgcOp.stage2 false]) 0)
        ≤ 1) := by
  constructor
  · set_option maxRecDepth 100000 in with_unfolding_all decide
  · set_option maxRecDepth 100000 in with_unfolding_all decide

/-- The maximum absolute value over a list (0 when empty), what a
decay-free peak slot accumulates. -/
def listAbsMax (xs : List ℚ) : ℚ := xs.foldr (fun a m => max |a| m) 0

/-- The last `n` elements of a list. -/
def lastN (n : ℕ) (xs : List ℚ) : List ℚ := xs.drop (xs.length - n)

/-- One envelope-follower call inside a per-sample run: the phase is the
running position modulo the reset cycle, exactly as `agc_process_stage2`
passes `s->in_pos % (2 * s->buffer_len)` to `agc_quad_rr`. -/
def quadStep (rp : Quad Int) (m : Int) (st : Int × Quad ℚ × ℚ) (x : ℚ) :
    Int × Quad ℚ × ℚ :=
  let r := agc_quad_rr st.2.1 rp (st.1.tmod m) x
  (st.1 + 1, r.1, r.2)

/-- A run of the envelope follower over a list of samples, one call per
sample, starting from position `pos` and storage `q` (0 from `calloc`);
the third component is the most recently reported level. -/
def quadFold (rp : Quad Int) (m : Int) (pos : Int) (q : Quad ℚ)
    (ys : List ℚ) : Int × Quad ℚ × ℚ :=
  ys.foldl (quadStep rp m) (pos, q, 0)

/-- The age of a slot at call position `pos`: how many samples (including
the current one) it has accumulated since its last reset at offset `r` of
the `m`-cycle. -/
def ageOf (m pos r : Int) : ℕ := ((pos - r) % m).toNat + 1

/-- A slot due for reset ends up holding exactly the input magnitude. -/
theorem rrSlot_reset (reset phase : Int) (ia st : ℚ) (hia : 0 ≤ ia)
    (h : reset = phase) : rrSlot reset phase ia st = ia := by
  simp only [rrSlot, if_pos h]
  rcases lt_or_eq_of_le hia with hlt | heq
  · rw [if_pos hlt]
  · rw [← heq]
    simp

/-- A slot not due for reset is raised to the input magnitude if higher. -/
theorem rrSlot_noreset (reset phase : Int) (ia st : ℚ)
    (h : reset ≠ phase) : rrSlot reset phase ia st = max st ia := by
  simp only [rrSlot, if_neg h]
  rcases le_or_lt ia st with hle | hlt
  · rw [if_neg (not_lt.mpr hle), max_eq_left hle]
  · rw [if_pos hlt, max_eq_right hlt.le]

/-- Slot-wise view of `agc_quad_rr`. -/
theorem quad_rr_get (storage : Quad ℚ) (rp : Quad Int) (phase : Int)
    (input : ℚ) (j : Fin 4) :
    (agc_quad_rr storage rp phase input).1.get j =
      rrSlot (rp.get j) phase |input| (storage.get j) := by
  fin_cases j <;> rfl

/-- An `if a > b then a else b` cascade step is a `max`. -/
theorem if_gt_eq_max (a b : ℚ) : (if a > b then a else b) = max a b := by
  rcases le_or_lt a b with h | h
  · rw [if_neg (not_lt.mpr h), max_eq_right h]
  · rw [if_pos h, max_eq_left h.le]

/-- The level `agc_quad_rr` reports is the maximum of the four updated
slots, provided they are nonnegative (they always are: each is an absolute
value or a previously stored one). -/
theorem quad_rr_report (storage : Quad ℚ) (rp : Quad Int) (phase : Int)
    (input : ℚ)
    (h0 : 0 ≤ (agc_quad_rr storage rp phase input).1.s0) :
    (agc_quad_rr storage rp phase input).2 =
      max (max ((agc_quad_rr storage rp phase input).1.s0)
          ((agc_quad_rr storage rp phase input).1.s1))
        (max ((agc_quad_rr storage rp phase input).1.s2)
          ((agc_quad_rr storage rp phase input).1.s3)) := by
  unfold agc_quad_rr
  dsimp only
  rw [if_gt_eq_max, if_gt_eq_max, if_gt_eq_max, if_gt_eq_max]
  unfold agc_quad_rr at h0
  dsimp only at h0
  rw [max_eq_left h0]
  simp [max_comm, max_assoc, max_left_comm]

/-- Every updated slot of `agc_quad_rr` is nonnegative when the stored
slots are. -/
theorem quad_rr_get_nonneg (storage : Quad ℚ) (rp : Quad Int) (phase : Int)
    (input : ℚ) (h : ∀ j : Fin 4, 0 ≤ storage.get j) (j : Fin 4) :
    0 ≤ (agc_quad_rr storage rp phase input).1.get j := by
  rw [quad_rr_get]
  by_cases hr : rp.get j = phase
  · rw [rrSlot_reset _ _ _ _ (abs_nonneg input) hr]
    exact abs_nonneg input
  · rw [rrSlot_noreset _ _ _ _ hr]
    exact le_max_of_le_left (h j)

/-- `listAbsMax` is nonnegative. -/
theorem listAbsMax_nonneg (xs : List ℚ) : 0 ≤ listAbsMax xs := by
  induction xs with
  | nil => exact le_refl 0
  | cons a as ih => exact le_trans ih (le_max_right _ _)

/-- Folding the peak update over a nonnegative seed maximises with it. -/
theorem foldr_absmax_init (xs : List ℚ) (c : ℚ) (hc : 0 ≤ c) :
    xs.foldr (fun a m => max |a| m) c = max (listAbsMax xs) c := by
  induction xs with
  | nil => simp [listAbsMax, max_eq_right hc]
  | cons a as ih =>
    simp only [List.foldr_cons, ih, listAbsMax, max_assoc]

/-- `listAbsMax` over an appended sample. -/
theorem listAbsMax_concat (xs : List ℚ) (x : ℚ) :
    listAbsMax (xs ++ [x]) = max (listAbsMax xs) |x| := by
  rw [listAbsMax, List.foldr_append]
  show xs.foldr (fun a m => max |a| m) (max |x| 0) = _
  rw [max_eq_left (abs_nonneg x), foldr_absmax_init xs |x| (abs_nonneg x)]

/-- `listAbsMax` distributes over append as a maximum. -/
theorem listAbsMax_append (xs ys : List ℚ) :
    listAbsMax (xs ++ ys) = max (listAbsMax xs) (listAbsMax ys) := by
  show (xs ++ ys).foldr (fun a m => max |a| m) 0 = _
  rw [List.foldr_append]
  exact foldr_absmax_init xs _ (listAbsMax_nonneg ys)

/-- Dropping elements can only lower the peak. -/
theorem listAbsMax_drop_le (k : ℕ) (xs : List ℚ) :
    listAbsMax (xs.drop k) ≤ listAbsMax xs := by
  conv_rhs => rw [← List.take_append_drop k xs]
  rw [listAbsMax_append]
  exact le_max_right _ _

/-- Peak over a longer suffix dominates peak over a shorter one. -/
theorem listAbsMax_lastN_mono (xs : List ℚ) (w wb : ℕ) (h : w ≤ wb) :
    listAbsMax (lastN w xs) ≤ listAbsMax (lastN wb xs) := by
  have hd : xs.drop (xs.length - w) =
      (xs.drop (xs.length - wb)).drop ((xs.length - w) -
        (xs.length - wb)) := by
    rw [List.drop_drop]
    congr 1
    omega
  rw [lastN, lastN, hd]
  exact listAbsMax_drop_le _ _

/-- Stepping a position by one steps its residue cyclically. -/
theorem emod_succ (d m : Int) (hm : 0 < m) :
    (d + 1) % m = if d % m = m - 1 then 0 else d % m + 1 := by
  have hd := Int.emod_add_ediv d m
  have h1 : (d + 1) % m = (d % m + 1) % m := by
    conv_lhs => rw [← hd]
    rw [add_right_comm, Int.add_mul_emod_self_left]
  have h2 : 0 ≤ d % m := Int.emod_nonneg d (ne_of_gt hm)
  have h3 : d % m < m := Int.emod_lt_of_pos d hm
  by_cases he : d % m = m - 1
  · rw [if_pos he, h1, he, sub_add_cancel, Int.emod_self]
  · rw [if_neg he, h1, Int.emod_eq_of_lt (by omega) (by omega)]

/-- The distance to a reset offset inside the cycle vanishes exactly at
the reset phase. -/
theorem sub_emod_zero_iff (pos r m : Int) (hm : 0 < m) (hr0 : 0 ≤ r)
    (hrm : r < m) : (pos - r) % m = 0 ↔ pos % m = r := by
  rw [← Int.emod_eq_emod_iff_emod_sub_eq_zero, Int.emod_eq_of_lt hr0 hrm]

/-- Appending a sample extends a suffix window by one. -/
theorem lastN_concat_succ (w : ℕ) (zs : List ℚ) (x : ℚ)
    (hw : w ≤ zs.length) :
    lastN (w + 1) (zs ++ [x]) = lastN w zs ++ [x] := by
  rw [lastN, lastN, List.length_append]
  simp only [List.length_singleton]
  rw [show zs.length + 1 - (w + 1) = zs.length - w from by omega,
    List.drop_append_of_le_length (by omega)]

/-- The run invariant of the round-robin follower: starting from zeroed
storage, after any number of per-sample calls each slot holds exactly the
peak magnitude over the suffix window reaching back to that slot's last
reset (capped by the number of samples seen). -/
theorem quadFold_spec (rp : Quad Int) (m : Int) (hm : 0 < m)
    (hrp : ∀ j : Fin 4, 0 ≤ rp.get j ∧ rp.get j < m)
    (p0 : Int) (hp0 : 0 ≤ p0) (ys : List ℚ) :
    (quadFold rp m p0 quadZero ys).1 = p0 + ys.length ∧
    ∀ j : Fin 4, (quadFold rp m p0 quadZero ys).2.1.get j =
      listAbsMax (lastN (min (ageOf m (p0 + ys.length - 1) (rp.get j))
        ys.length) ys) := by
  induction ys using List.reverseRecOn with
  | nil =>
    refine ⟨by simp [quadFold], fun j => ?_⟩
    simp only [List.length_nil, Nat.min_zero, lastN, List.drop_nil,
      listAbsMax, List.foldr_nil]
    show quadZero.get j = 0
    fin_cases j <;> rfl
  | append_singleton zs x ih =>
    obtain ⟨hpos, hslots⟩ := ih
    have hiter : quadFold rp m p0 quadZero (zs ++ [x]) =
        quadStep rp m (quadFold rp m p0 quadZero zs) x := by
      simp [quadFold, List.foldl_append]
    have hlen : (zs ++ [x]).length = zs.length + 1 := by simp
    have hphase : (quadFold rp m p0 quadZero zs).1.tmod m =
        (p0 + zs.length) % m := by
      rw [hpos]
      exact Int.tmod_eq_emod (by omega) (le_of_lt hm)
    constructor
    · rw [hiter]
      show (quadFold rp m p0 quadZero zs).1 + 1 = _
      rw [hpos, hlen]
      push_cast
      ring
    · intro j
      have hr0 := (hrp j).1
      have hrm := (hrp j).2
      rw [hiter, hlen]
      show (agc_quad_rr (quadFold rp m p0 quadZero zs).2.1 rp
          ((quadFold rp m p0 quadZero zs).1.tmod m) x).1.get j = _
      rw [quad_rr_get, hphase]
      have hposInt : p0 + ((zs.length : ℕ) + 1 : ℕ) - 1 =
          p0 + zs.length := by push_cast; ring
      rw [hposInt]
      by_cases hres : rp.get j = (p0 + zs.length) % m
      · rw [rrSlot_reset _ _ _ _ (abs_nonneg x) hres]
        have hage : ageOf m (p0 + zs.length) (rp.get j) = 1 := by
          rw [ageOf, (sub_emod_zero_iff _ _ _ hm hr0 hrm).mpr hres.symm]
          rfl
        rw [hage, Nat.min_eq_left (by omega)]
        have hdrop : lastN 1 (zs ++ [x]) = [x] := by
          rw [lastN, List.length_append]
          simp only [List.length_singleton]
          rw [show zs.length + 1 - 1 = zs.length from by omega,
            List.drop_append_of_le_length (le_refl _), List.drop_length,
            List.nil_append]
        rw [hdrop]
        show |x| = max |x| 0
        rw [max_eq_left (abs_nonneg x)]
      · rw [rrSlot_noreset _ _ _ _ hres, hslots j]
        have hnz : (p0 + zs.length - rp.get j) % m ≠ 0 := by
          intro h0
          exact hres ((sub_emod_zero_iff _ _ _ hm hr0 hrm).mp h0).symm
        have hsucc := emod_succ (p0 + zs.length - 1 - rp.get j) m hm
        have harg : p0 + zs.length - 1 - rp.get j + 1 =
            p0 + zs.length - rp.get j := by ring
        rw [harg] at hsucc
        by_cases hd : (p0 + zs.length - 1 - rp.get j) % m = m - 1
        · rw [if_pos hd] at hsucc
          exact absurd hsucc hnz
        rw [if_neg hd] at hsucc
        have hev : 0 ≤ (p0 + zs.length - 1 - rp.get j) % m :=
          Int.emod_nonneg _ (ne_of_gt hm)
        have hage : ageOf m (p0 + zs.length) (rp.get j) =
            ageOf m (p0 + zs.length - 1) (rp.get j) + 1 := by
          rw [ageOf, ageOf, hsucc]
          omega
        rw [hage]
        have hmin : min (ageOf m (p0 + zs.length - 1) (rp.get j) + 1)
            (zs.length + 1) =
            min (ageOf m (p0 + zs.length - 1) (rp.get j)) zs.length + 1 :=
          by omega
        rw [hmin, lastN_concat_succ _ _ _ (by omega),
          listAbsMax_concat]

/-- The four reset offsets `agc_init` computes lie inside the reset cycle
`[0, 2*buffer_len)`. -/
theorem reset_points_bounds (L : ℕ) (hL : 1 ≤ L) :
    ∀ j : Fin 4, 0 ≤ (agc_reset_points (L : Int)).get j ∧
      (agc_reset_points (L : Int)).get j < 2 * (L : Int) := by
  have hL' : (1 : Int) ≤ (L : Int) := by exact_mod_cast hL
  have e1 : ((L : Int) * 2 * 1).tdiv 4 = ((L : Int) * 2 * 1) / 4 :=
    Int.tdiv_eq_ediv (by linarith) (by norm_num)
  have e2 : ((L : Int) * 2 * 2).tdiv 4 = ((L : Int) * 2 * 2) / 4 :=
    Int.tdiv_eq_ediv (by linarith) (by norm_num)
  have e3 : ((L : Int) * 2 * 3).tdiv 4 = ((L : Int) * 2 * 3) / 4 :=
    Int.tdiv_eq_ediv (by linarith) (by norm_num)
  intro j
  fin_cases j
  · exact ⟨le_refl 0, by show (0 : Int) < 2 * (L : Int); omega⟩
  · constructor
    · show (0 : Int) ≤ ((L : Int) * 2 * 1).tdiv 4
      rw [e1]; omega
    · show ((L : Int) * 2 * 1).tdiv 4 < 2 * (L : Int)
      rw [e1]; omega
  · constructor
    · show (0 : Int) ≤ ((L : Int) * 2 * 2).tdiv 4
      rw [e2]; omega
    · show ((L : Int) * 2 * 2).tdiv 4 < 2 * (L : Int)
      rw [e2]; omega
  · constructor
    · show (0 : Int) ≤ ((L : Int) * 2 * 3).tdiv 4
      rw [e3]; omega
    · show ((L : Int) * 2 * 3).tdiv 4 < 2 * (L : Int)
      rw [e3]; omega

/-- The maximum of four suffix peaks is the peak over the widest of the
four windows. -/
theorem max4_lastN (ys : List ℚ) (w0 w1 w2 w3 : ℕ) :
    max (max (listAbsMax (lastN w0 ys)) (listAbsMax (lastN w1 ys)))
      (max (listAbsMax (lastN w2 ys)) (listAbsMax (lastN w3 ys))) =
    listAbsMax (lastN (max (max w0 w1) (max w2 w3)) ys) := by
  apply le_antisymm
  · refine max_le (max_le ?_ ?_) (max_le ?_ ?_) <;>
      exact listAbsMax_lastN_mono ys _ _ (by omega)
  · have h : max (max w0 w1) (max w2 w3) = w0 ∨
        max (max w0 w1) (max w2 w3) = w1 ∨
        max (max w0 w1) (max w2 w3) = w2 ∨
        max (max w0 w1) (max w2 w3) = w3 := by omega
    rcases h with h | h | h | h <;> rw [h]
    · exact le_max_of_le_left (le_max_left _ _)
    · exact le_max_of_le_left (le_max_right _ _)
    · exact le_max_of_le_right (le_max_left _ _)
    · exact le_max_of_le_right (le_max_right _ _)

/-- `Quad.get` at index 0 reads the first slot. -/
theorem Quad.get_zero {α : Type} (q : Quad α) : q.get 0 = q.s0 := rfl

/-- `Quad.get` at index 1 reads the second slot. -/
theorem Quad.get_one {α : Type} (q : Quad α) : q.get 1 = q.s1 := rfl

/-- `Quad.get` at index 2 reads the third slot. -/
theorem Quad.get_two {α : Type} (q : Quad α) : q.get 2 = q.s2 := rfl

/-- `Quad.get` at index 3 reads the fourth slot. -/
theorem Quad.get_three {α : Type} (q : Quad α) : q.get 3 = q.s3 := rfl

/-- C4: per call, the slot whose reset offset equals the current phase is
zeroed and then raised to the sample magnitude (so it ends holding exactly
the magnitude), every other slot is raised to the magnitude if higher, the
reported level is the maximum of the four updated slots, and no unreset
slot's stored peak can exceed the report (no drop to zero on a single
reset); and over a per-sample run from the zeroed storage with the reset
offsets of `agc_init`, every reported level equals the maximum absolute
sample value over a lookback window of between 1 and `2 * buffer_len`
samples. -/
theorem c4_round_robin_envelope :
    (∀ (storage : Quad ℚ) (rp : Quad Int) (phase : Int) (input : ℚ),
      (∀ j : Fin 4, 0 ≤ storage.get j) →
      (∀ j : Fin 4, rp.get j = phase →
        (agc_quad_rr storage rp phase input).1.get j = |input|) ∧
      (∀ j : Fin 4, rp.get j ≠ phase →
        (agc_quad_rr storage rp phase input).1.get j =
          max (storage.get j) |input|) ∧
      (agc_quad_rr storage rp phase input).2 =
        max (max ((agc_quad_rr storage rp phase input).1.s0)
            ((agc_quad_rr storage rp phase input).1.s1))
          (max ((agc_quad_rr storage rp phase input).1.s2)
            ((agc_quad_rr storage rp phase input).1.s3)) ∧
      (∀ j : Fin 4, rp.get j ≠ phase →
        storage.get j ≤ (agc_quad_rr storage rp phase input).2)) ∧
    (∀ (L : ℕ) (start : Int) (ys : List ℚ), 1 ≤ L → 0 ≤ start → ys ≠ [] →
      ∃ w : ℕ, 1 ≤ w ∧ w ≤ 2 * L ∧
        (quadFold (agc_reset_points (L : Int)) (2 * (L : Int)) start
          quadZero ys).2.2 = listAbsMax (lastN w ys)) := by
  constructor
  · intro storage rp phase input h
    have hrep := quad_rr_report storage rp phase input (by
      have h0 := quad_rr_get_nonneg storage rp phase input h 0
      rwa [Quad.get_zero] at h0)
    refine ⟨?_, ?_, hrep, ?_⟩
    · intro j hj
      rw [quad_rr_get, rrSlot_reset _ _ _ _ (abs_nonneg input) hj]
    · intro j hj
      rw [quad_rr_get, rrSlot_noreset _ _ _ _ hj]
    · intro j hj
      have h1 : storage.get j ≤ (agc_quad_rr storage rp phase input).1.get
          j := by
        rw [quad_rr_get, rrSlot_noreset _ _ _ _ hj]
        exact le_max_left _ _
      have h2 : (agc_quad_rr storage rp phase input).1.get j ≤
          (agc_quad_rr storage rp phase input).2 := by
        rw [hrep]
        fin_cases j
        · exact le_max_of_le_left (le_max_left _ _)
        · exact le_max_of_le_left (le_max_right _ _)
        · exact le_max_of_le_right (le_max_left _ _)
        · exact le_max_of_le_right (le_max_right _ _)
      exact le_trans h1 h2
  · intro L start ys hL hstart hys
    rcases List.eq_nil_or_concat ys with rfl | ⟨zs, y, rfl⟩
    · exact absurd rfl hys
    rw [List.concat_eq_append]
    have hLi : (1 : Int) ≤ (L : Int) := by exact_mod_cast hL
    set rp' := agc_reset_points (L : Int) with hrpdef
    set m := 2 * (L : Int) with hmdef
    have hm : (0 : Int) < m := by omega
    have hrp := reset_points_bounds L hL
    have hspec := quadFold_spec rp' m hm hrp start hstart (zs ++ [y])
    have hiter : quadFold rp' m start quadZero (zs ++ [y]) =
        quadStep rp' m (quadFold rp' m start quadZero zs) y := by
      simp [quadFold, List.foldl_append]
    set F := quadFold rp' m start quadZero (zs ++ [y]) with hF
    set R := quadFold rp' m start quadZero zs with hR
    have hQ1 : F.2.1 = (agc_quad_rr R.2.1 rp' (R.1.tmod m) y).1 := by
      rw [hiter]; rfl
    have hQ2 : F.2.2 = (agc_quad_rr R.2.1 rp' (R.1.tmod m) y).2 := by
      rw [hiter]; rfl
    have hs0 := hspec.2 0
    have hs1 := hspec.2 1
    have hs2 := hspec.2 2
    have hs3 := hspec.2 3
    set n' := (zs ++ [y]).length with hn'
    have hn1 : 1 ≤ n' := by rw [hn']; simp
    set a0 := ageOf m (start + (n' : Int) - 1) (rp'.get 0) with ha0
    set a1 := ageOf m (start + (n' : Int) - 1) (rp'.get 1) with ha1
    set a2 := ageOf m (start + (n' : Int) - 1) (rp'.get 2) with ha2
    set a3 := ageOf m (start + (n' : Int) - 1) (rp'.get 3) with ha3
    have hageb : ∀ r : Int, ageOf m (start + (n' : Int) - 1) r ≤ 2 * L :=
      by
      intro r
      have hlt := Int.emod_lt_of_pos (start + (n' : Int) - 1 - r) hm
      have hge := Int.emod_nonneg (start + (n' : Int) - 1 - r)
        (ne_of_gt hm)
      rw [ageOf]
      omega
    have ha0p : 1 ≤ a0 := by rw [ha0, ageOf]; omega
    have hb0 := ha0 ▸ hageb (rp'.get 0)
    have hb1 := ha1 ▸ hageb (rp'.get 1)
    have hb2 := ha2 ▸ hageb (rp'.get 2)
    have hb3 := ha3 ▸ hageb (rp'.get 3)
    refine ⟨max (max (min a0 n') (min a1 n')) (max (min a2 n') (min a3 n')),
      by omega, by omega, ?_⟩
    have hnn0 : 0 ≤ F.2.1.get 0 := by
      rw [hs0]; exact listAbsMax_nonneg _
    have hrep := quad_rr_report R.2.1 rp' (R.1.tmod m) y (by
      rw [← Quad.get_zero, ← hQ1]
      exact hnn0)
    rw [hQ2, hrep, ← hQ1, ← Quad.get_zero, ← Quad.get_one, ← Quad.get_two,
      ← Quad.get_three, hs0, hs1, hs2, hs3]
    exact max4_lastN (zs ++ [y]) _ _ _ _

/-- Witness for C4: one concrete call (slot 2 resets at phase 2, sample
−5) and one concrete two-sample run at `buffer_len = 2`. -/
theorem c4_witness :
    (∀ j : Fin 4, 0 ≤ (⟨1, 2, 3, 4⟩ : Quad ℚ).get j) ∧
    ((∀ j : Fin 4, (⟨0, 1, 2, 3⟩ : Quad Int).get j = 2 →
        (agc_quad_rr ⟨1, 2, 3, 4⟩ ⟨0, 1, 2, 3⟩ 2 (-5)).1.get j =
          |(-5 : ℚ)|) ∧
      (∀ j : Fin 4, (⟨0, 1, 2, 3⟩ : Quad Int).get j ≠ 2 →
        (agc_quad_rr ⟨1, 2, 3, 4⟩ ⟨0, 1, 2, 3⟩ 2 (-5)).1.get j =
          max ((⟨1, 2, 3, 4⟩ : Quad ℚ).get j) |(-5 : ℚ)|) ∧
      (agc_quad_rr ⟨1, 2, 3, 4⟩ ⟨0, 1, 2, 3⟩ 2 (-5)).2 =
        max (max ((agc_quad_rr ⟨1, 2, 3, 4⟩ ⟨0, 1, 2, 3⟩ 2 (-5)).1.s0)
            ((agc_quad_rr ⟨1, 2, 3, 4⟩ ⟨0, 1, 2, 3⟩ 2 (-5)).1.s1))
          (max ((agc_quad_rr ⟨1, 2, 3, 4⟩ ⟨0, 1, 2, 3⟩ 2 (-5)).1.s2)
            ((agc_quad_rr ⟨1, 2, 3, 4⟩ ⟨0, 1, 2, 3⟩ 2 (-5)).1.s3)) ∧
      (∀ j : Fin 4, (⟨0, 1, 2, 3⟩ : Quad Int).get j ≠ 2 →
        (⟨1, 2, 3, 4⟩ : Quad ℚ).get j ≤
          (agc_quad_rr ⟨1, 2, 3, 4⟩ ⟨0, 1, 2, 3⟩ 2 (-5)).2)) ∧
    ((1 ≤ 2 ∧ (0 : Int) ≤ 0 ∧ ([3, -4] : List ℚ) ≠ []) ∧
      ∃ w : ℕ, 1 ≤ w ∧ w ≤ 2 * 2 ∧
        (quadFold (agc_reset_points ((2 : ℕ) : Int)) (2 * ((2 : ℕ) : Int))
          0 quadZero [3, -4]).2.2 = listAbsMax (lastN w [3, -4])) :=
  ⟨by with_unfolding_all decide,
   c4_round_robin_envelope.1 ⟨1, 2, 3, 4⟩ ⟨0, 1, 2, 3⟩ 2 (-5)
     (by with_unfolding_all decide),
   ⟨by decide, by decide, by with_unfolding_all decide⟩,
   c4_round_robin_envelope.2 2 0 [3, -4] (by decide) (by decide)
     (by with_unfolding_all decide)⟩
